import Mathlib

/-!
# Verification of the heliotorrent webseed proxy request pipeline

A shallow embedding of the request-handling core of `src/main.rs`:
path sanitization (`sanitize_path`), the bounded per-origin LRU cache
(`lru::LruCache` as used through `get_cached_body` / `fetch_and_cache_body`),
HTTP Range parsing (`parse_range_header`), partial-content serving
(`handle_range_response`), the README diversion (`handle_readme`), the
per-origin statistics counters, and the dispatcher (`proxy_handler`).

Bodies are byte lists (`List Nat`, each entry a byte value), strings are
Lean `String`s processed through their character lists, machine `usize`
arithmetic is `Nat` with explicit `% 2 ^ 64` where Rust release-mode
wrapping matters.  Effects of the Rust async functions are made explicit:
the shared cache and the shared statistics map are threaded as values, the
result of the upstream GET and the result of reading the README file are
passed in as `Option` arguments (`none` covering transport failure /
non-2xx status / body-read failure, respectively an unreadable file).
-/

namespace Heliotorrent

/-- A response or file body: a list of byte values. -/
abbrev Bytes := List Nat

/-- `LogStats` from `main.rs`: the three per-origin counters. -/
structure LogStats where
  bytes_served : Nat
  request_count : Nat
  cache_hits : Nat
deriving DecidableEq, Repr

/-- `LogStats::default()`: all counters zero. -/
def LogStats.init : LogStats := ⟨0, 0, 0⟩

/-- The `HashMap<String, LogStats>` behind the stats mutex, as an
association list (first match wins, mirroring unique-key maps). -/
abbrev StatsMap := List (String × LogStats)

/-- Lookup in the stats map (`HashMap::get`). -/
def statsFind : StatsMap → String → Option LogStats
  | [], _ => none
  | (n, s) :: rest, name => if n = name then some s else statsFind rest name

/-- The counters recorded for an origin, zero if the origin was never
touched (`entry(..).or_default()` semantics on the read side). -/
def statsGet (m : StatsMap) (name : String) : LogStats :=
  (statsFind m name).getD LogStats.init

/-- `stats_guard.entry(name.clone()).or_default()` followed by a counter
mutation `f`: update the entry in place, or create it from the default. -/
def bumpStats : StatsMap → String → (LogStats → LogStats) → StatsMap
  | [], name, f => [(name, f LogStats.init)]
  | (n, s) :: rest, name, f =>
    if n = name then (n, f s) :: rest else (n, s) :: bumpStats rest name f

/-- The per-origin `LruCache<String, Vec<u8>>`, in recency order with the
most-recently-touched entry first. -/
abbrev Cache := List (String × Bytes)

/-- Capacity of each per-origin cache (`LruCache::new(NonZeroUsize::new(1024))`
in `launch_proxy`). -/
def logCacheCapacity : Nat := 1024

/-- Lookup of a key's value, ignoring recency. -/
def cacheLookup : Cache → String → Option Bytes
  | [], _ => none
  | (n, v) :: rest, key => if n = key then some v else cacheLookup rest key

/-- Remove the (first) entry holding `key`, keeping the rest in order. -/
def cacheErase : Cache → String → Cache
  | [], _ => []
  | (n, v) :: rest, key => if n = key then rest else (n, v) :: cacheErase rest key

/-- `LruCache::get`: on a hit the entry is marked most-recently-used and the
value is returned; on a miss the cache is unchanged. -/
def LruCache.get (c : Cache) (key : String) : Option Bytes × Cache :=
  match cacheLookup c key with
  | none => (none, c)
  | some v => (some v, (key, v) :: cacheErase c key)

/-- `LruCache::put` with capacity `cap`: insert or overwrite `key`, mark it
most-recently-used, and drop the least-recently-used entry when the
capacity is exceeded. -/
def LruCache.put (c : Cache) (cap : Nat) (key : String) (v : Bytes) : Cache :=
  let c' := (key, v) :: cacheErase c key
  if cap < c'.length then c'.dropLast else c'

/-- `get_cached_body`: lock the cache, `get`, clone the bytes out. -/
def get_cached_body (cache : Cache) (cache_key : String) : Option Bytes × Cache :=
  LruCache.get cache cache_key

/-- `fetch_and_cache_body`: issue the upstream GET and, on success, buffer
the whole body and `put` it into the cache under `cache_key`.  The
`upstream` argument is the outcome of the GET for this path: `none` for a
transport error, a non-2xx status, or a body-read error (all three return
`None` in the Rust code without touching the cache). -/
def fetch_and_cache_body (upstream : Option Bytes) (cache : Cache)
    (cache_key : String) : Option Bytes × Cache :=
  match upstream with
  | none => (none, cache)
  | some body => (some body, LruCache.put cache logCacheCapacity cache_key body)

/-- The keys of a cache in recency order. -/
def cacheKeys (c : Cache) : List String := c.map Prod.fst

/-- One observable operation on a per-origin cache. -/
inductive CacheOp where
  | get (key : String)
  | put (key : String) (v : Bytes)
deriving DecidableEq

/-- Apply one operation at the configured capacity, keeping the state. -/
def applyOp (c : Cache) : CacheOp → Cache
  | .get key => (LruCache.get c key).2
  | .put key v => LruCache.put c logCacheCapacity key v

/-- Run a sequence of cache operations. -/
def runOps (c : Cache) (ops : List CacheOp) : Cache := ops.foldl applyOp c

/-- Insert a sequence of key/value pairs with `put`. -/
def putAll (c : Cache) (kvs : List (String × Bytes)) : Cache :=
  kvs.foldl (fun c kv => LruCache.put c logCacheCapacity kv.1 kv.2) c

/-! ## Range header parsing -/

/-- Accumulate a decimal digit string, most significant first. -/
def digitsToNat (cs : List Char) : Nat :=
  cs.foldl (fun acc c => acc * 10 + (c.toNat - '0'.toNat)) 0

/-- Rust `str::parse::<usize>()` on a 64-bit target: an optional leading
`'+'`, then one or more ASCII digits, value at most `usize::MAX`
(otherwise `Err(PosOverflow)`, hence `none`). -/
def parseUsize (s : String) : Option Nat :=
  let cs := match s.data with
    | '+' :: rest => rest
    | cs => cs
  if cs ≠ [] ∧ cs.all Char.isDigit ∧ digitsToNat cs < 2 ^ 64 then
    some (digitsToNat cs)
  else none

/-- `str::split(sep)` on the character list of a string: like Rust, an
empty input yields one empty part, and adjacent separators yield empty
parts. -/
def splitChar (sep : Char) : List Char → List (List Char)
  | [] => [[]]
  | c :: rest =>
    if c = sep then [] :: splitChar sep rest
    else
      match splitChar sep rest with
      | h :: t => (c :: h) :: t
      | [] => [[c]]

/-- `str::starts_with` on character lists. -/
def hasPfx : List Char → List Char → Bool
  | [], _ => true
  | _ :: _, [] => false
  | p :: ps, c :: cs => p = c && hasPfx ps cs

/-- The purely syntactic part of `parse_range_header`: the header must be
`bytes=<start>-<end>` with `<end>` optionally empty; yields the two parsed
numbers before the exclusive-end arithmetic is applied. -/
def parseRangeRaw (range : String) : Option (Nat × Option Nat) :=
  if hasPfx "bytes=".data range.data then
    match (splitChar '-' (range.data.drop 6)).map String.mk with
    | [a, b] =>
      match parseUsize a with
      | none => none
      | some start =>
        if b = "" then some (start, none)
        else
          match parseUsize b with
          | none => none
          | some e => some (start, some e)
    | _ => none
  else none

/-- `parse_range_header(range, len)`: on `bytes=<start>-` the exclusive end
is `len`; on `bytes=<start>-<end>` it is `end + 1` computed in `usize`
arithmetic, i.e. modulo `2 ^ 64` (Rust release builds wrap on overflow). -/
def parse_range_header (range : String) (len : Nat) : Option (Nat × Nat) :=
  match parseRangeRaw range with
  | none => none
  | some (start, none) => some (start, len)
  | some (start, some e) => some (start, (e + 1) % 2 ^ 64)

/-! ## Path sanitization -/

/-- `path.splitn(2, '/')`: everything after the first `'/'`, or `none` when
the path has no `'/'` (so that `parts.len() > 1` fails). -/
def restAfterSlash : List Char → Option (List Char)
  | [] => none
  | c :: rest => if c = '/' then some rest else restAfterSlash rest

/-- A component in the sense of Rust `std::path::Component` (Unix). -/
inductive RComp where
  | rootDir
  | curDir
  | parentDir
  | normal (s : String)
deriving DecidableEq

/-- Classify one non-empty path segment. -/
def toComp (s : List Char) : RComp :=
  if s = ['.'] then .curDir
  else if s = ['.', '.'] then .parentDir
  else .normal (String.mk s)

/-- The treatment of `.` components in a relative path: one is kept at
the very beginning, all others are normalized away. -/
def normalizeRel (comps : List RComp) : List RComp :=
  match comps with
  | RComp.curDir :: rest => RComp.curDir :: rest.filter (· ≠ RComp.curDir)
  | _ => comps.filter (· ≠ RComp.curDir)

/-- Rust `Path::new(raw).components()` on Unix: repeated separators and a
trailing separator are ignored, `.` segments are normalized away except at
the beginning of a relative path, and a leading separator yields a
`RootDir` component. -/
def rustComponents (raw : List Char) : List RComp :=
  if hasPfx ['/'] raw then
    RComp.rootDir ::
      ((((splitChar '/' raw).filter (· ≠ [])).map toComp).filter (· ≠ RComp.curDir))
  else
    normalizeRel (((splitChar '/' raw).filter (· ≠ [])).map toComp)

/-- The component loop of `sanitize_path`: collect `Normal` segments,
fail (`valid = false`, breaking out) on any other component. -/
def collectNormal : List RComp → Option (List String)
  | [] => some []
  | RComp.normal s :: rest => (collectNormal rest).map (s :: ·)
  | _ => none

/-- `Vec::join("/")`. -/
def joinSlash : List String → String
  | [] => ""
  | [s] => s
  | s :: rest => s ++ "/" ++ joinSlash rest

/-- `sanitize_path`: discard the first `/`-segment, walk the components of
the remainder, accept only `Normal` ones, and rejoin with `/`; any other
component, a missing remainder, or an empty result yields the empty-string
invalid sentinel. -/
def sanitize_path (path : String) : String :=
  match restAfterSlash path.data with
  | none => ""
  | some raw =>
    match collectNormal (rustComponents raw) with
    | none => ""
    | some [] => ""
    | some segs => joinSlash segs

/-- The normalization the specification describes for plain relative
remainders: the `/`-join of the non-empty, non-dot segments.  Stated from
the spec's words, for comparison with `sanitize_path`. -/
def specSanitizeJoin (r : List Char) : String :=
  joinSlash (((splitChar '/' r).filter (fun s => s ≠ [] ∧ s ≠ ['.'])).map String.mk)

/-! ## Responses and the dispatcher -/

/-- The observable parts of an `axum` response built by the pipeline:
status code, the headers the code sets, and the payload. -/
structure HttpResponse where
  status : Nat
  contentRange : Option String := none
  contentLength : Option Nat := none
  xCache : Option String := none
  contentType : Option String := none
  body : Bytes := []
deriving DecidableEq

/-- The `Content-Range` header value `bytes {start}-{end - 1}/{total}`. -/
def contentRangeValue (start endEx total : Nat) : String :=
  "bytes " ++ toString start ++ "-" ++ toString (endEx - 1) ++ "/" ++ toString total

/-- `handle_range_response`: parse the Range header against the body
length; an unparseable header yields `none` (caller falls back to the full
response); an out-of-window range yields 416 with an empty body and no
headers; otherwise slice, account the slice length into `bytes_served`,
and build the 206 response. -/
def handle_range_response (body : Bytes) (range_str : String)
    (is_cache_hit : Bool) (log_name : String) (stats : StatsMap) :
    Option HttpResponse × StatsMap :=
  match parse_range_header range_str body.length with
  | none => (none, stats)
  | some (start, endEx) =>
    if start ≥ body.length ∨ endEx > body.length ∨ start ≥ endEx then
      (some { status := 416 }, stats)
    else
      let sliced := (body.drop start).take (endEx - start)
      (some { status := 206,
              contentRange := some (contentRangeValue start endEx body.length),
              contentLength := some sliced.length,
              xCache := some (if is_cache_hit then "HIT" else "MISS"),
              body := sliced },
       bumpStats stats log_name
         (fun s => { s with bytes_served := s.bytes_served + sliced.length }))

/-- `handle_readme`: `readmeFile` is the outcome of reading
`<log_data_dir>/README.md` (`none` when unreadable, giving 404).  A
parseable Range header is resolved by `handle_range_response` with
`is_cache_hit = true`; otherwise the whole file is served as 200 with the
markdown content type and `bytes_served` grows by the full length. -/
def handle_readme (readmeFile : Option Bytes) (rangeHeader : Option String)
    (log_name : String) (stats : StatsMap) : HttpResponse × StatsMap :=
  match readmeFile with
  | none => ({ status := 404 }, stats)
  | some body =>
    match
      (match rangeHeader with
       | some rs => handle_range_response body rs true log_name stats
       | none => (none, stats)) with
    | (some resp, stats') => (resp, stats')
    | (none, stats') =>
      ({ status := 200,
         contentType := some "text/markdown; charset=UTF-8",
         contentLength := some body.length,
         body := body },
       bumpStats stats' log_name
         (fun s => { s with bytes_served := s.bytes_served + body.length }))

/-- Dispatcher output: the response plus the shared state after the
request. -/
structure ProxyOut where
  resp : HttpResponse
  cache : Cache
  stats : StatsMap
deriving DecidableEq

/-- The tail of `proxy_handler` once a body is in hand (lines 396-424 of
`main.rs`): resolve a present Range header, else serve the full body as
200 with `Content-Length`, the `X-Cache` marker, and a `bytes_served`
increment by the full length. -/
def serve_body (body : Bytes) (is_cache_hit : Bool) (rangeHeader : Option String)
    (log_name : String) (cache : Cache) (stats : StatsMap) : ProxyOut :=
  match
    (match rangeHeader with
     | some rs => handle_range_response body rs is_cache_hit log_name stats
     | none => (none, stats)) with
  | (some resp, stats') => ⟨resp, cache, stats'⟩
  | (none, stats') =>
    ⟨{ status := 200,
       contentLength := some body.length,
       xCache := some (if is_cache_hit then "HIT" else "MISS"),
       body := body },
     cache,
     bumpStats stats' log_name
       (fun s => { s with bytes_served := s.bytes_served + body.length })⟩

/-- `proxy_handler`: bump `request_count`, sanitize, reject the sentinel
with 400, divert `README.md`, otherwise look up the cache (bumping
`cache_hits` on a hit) or fetch upstream (502 on failure), and serve. -/
def proxy_handler (rawPath : String) (rangeHeader : Option String)
    (upstream readmeFile : Option Bytes) (log_name : String)
    (cache : Cache) (stats : StatsMap) : ProxyOut :=
  let stats1 := bumpStats stats log_name
    (fun s => { s with request_count := s.request_count + 1 })
  if sanitize_path rawPath = "" then
    ⟨{ status := 400 }, cache, stats1⟩
  else if sanitize_path rawPath = "README.md" then
    ⟨(handle_readme readmeFile rangeHeader log_name stats1).1, cache,
     (handle_readme readmeFile rangeHeader log_name stats1).2⟩
  else
    match get_cached_body cache (sanitize_path rawPath) with
    | (some body, cache') =>
      serve_body body true rangeHeader log_name cache'
        (bumpStats stats1 log_name (fun s => { s with cache_hits := s.cache_hits + 1 }))
    | (none, _) =>
      match fetch_and_cache_body upstream cache (sanitize_path rawPath) with
      | (none, cache') => ⟨{ status := 502 }, cache', stats1⟩
      | (some body, cache') => serve_body body false rangeHeader log_name cache' stats1


/-! ## Basic lemmas about the statistics map and the range resolver -/

theorem statsGet_bumpStats_same (m : StatsMap) (n : String) (f : LogStats → LogStats) :
    statsGet (bumpStats m n f) n = f (statsGet m n) := by
  induction m with
  | nil => simp [bumpStats, statsGet, statsFind]
  | cons p rest ih =>
    obtain ⟨n', s⟩ := p
    by_cases h : n' = n
    · subst h; simp [bumpStats, statsGet, statsFind]
    · simpa [bumpStats, statsGet, statsFind, h] using ih

theorem length_slice (body : Bytes) (a e : Nat) (h1 : e ≤ body.length) :
    ((body.drop a).take (e - a)).length = e - a := by
  simp only [List.length_take, List.length_drop]
  exact Nat.min_eq_left (Nat.sub_le_sub_right h1 a)

theorem hrr_parse_none {body : Bytes} {rs : String} {hit : Bool} {n : String}
    {st : StatsMap} (h : parse_range_header rs body.length = none) :
    handle_range_response body rs hit n st = (none, st) := by
  simp [handle_range_response, h]

theorem hrr_invalid {body : Bytes} {rs : String} {hit : Bool} {n : String}
    {st : StatsMap} {a e : Nat} (h : parse_range_header rs body.length = some (a, e))
    (hv : a ≥ body.length ∨ e > body.length ∨ a ≥ e) :
    handle_range_response body rs hit n st = (some { status := 416 }, st) := by
  simp only [handle_range_response, h]
  rw [if_pos hv]

theorem hrr_valid {body : Bytes} {rs : String} {hit : Bool} {n : String}
    {st : StatsMap} {a e : Nat} (h : parse_range_header rs body.length = some (a, e))
    (hv : ¬(a ≥ body.length ∨ e > body.length ∨ a ≥ e)) :
    handle_range_response body rs hit n st =
      (some { status := 206,
              contentRange := some (contentRangeValue a e body.length),
              contentLength := some (e - a),
              xCache := some (if hit then "HIT" else "MISS"),
              body := (body.drop a).take (e - a) },
       bumpStats st n (fun s => { s with bytes_served := s.bytes_served + (e - a) })) := by
  have hv' := hv
  push_neg at hv'
  obtain ⟨-, h2, -⟩ := hv'
  have hlen := length_slice body a e h2
  simp only [handle_range_response, h]
  rw [if_neg hv]
  simp only [hlen]

/-- C1: for every body of length `L` and every Range header that parses to
the half-open window `[start, endEx)`, an out-of-window request
(`start ≥ L`, `endEx > L`, or `start ≥ endEx`) yields 416 with an empty
body and no `Content-Range`, and a valid one yields 206 with
`Content-Range: bytes {start}-{endEx - 1}/{L}`, `Content-Length`
`endEx - start`, and the byte slice `[start, endEx)` as body. -/
theorem range_resolver_semantics (body : Bytes) (rs : String) (hit : Bool)
    (n : String) (st : StatsMap) (a e : Nat)
    (hp : parse_range_header rs body.length = some (a, e)) :
    ((a ≥ body.length ∨ e > body.length ∨ a ≥ e) →
      (handle_range_response body rs hit n st).1 = some { status := 416 }) ∧
    (¬(a ≥ body.length ∨ e > body.length ∨ a ≥ e) →
      (handle_range_response body rs hit n st).1 =
        some { status := 206,
               contentRange := some (contentRangeValue a e body.length),
               contentLength := some (e - a),
               xCache := some (if hit then "HIT" else "MISS"),
               body := (body.drop a).take (e - a) }) := by
  constructor
  · intro hv; rw [hrr_invalid hp hv]
  · intro hv; rw [hrr_valid hp hv]

/-- Witness for C1 at a concrete body and header. -/
theorem range_resolver_semantics_witness :
    (handle_range_response [0, 1, 2, 3, 4, 5, 6, 7, 8, 9] "bytes=2-5" true "log" []).1 =
      some { status := 206,
             contentRange := some "bytes 2-5/10",
             contentLength := some 4,
             xCache := some "HIT",
             body := [2, 3, 4, 5] } :=
  (range_resolver_semantics [0, 1, 2, 3, 4, 5, 6, 7, 8, 9] "bytes=2-5" true "log" [] 2 6
    (by decide)).2 (by decide)

/-! ## C10: totality and bounds of range handling -/

theorem parse_none_of_raw_none {rs : String} {L : Nat} (h : parseRangeRaw rs = none) :
    parse_range_header rs L = none := by
  simp [parse_range_header, h]

/-- C10: range handling is total and in-bounds: whenever the header parses,
a response is produced; a 206 response is only produced under the guard
`start < endEx` and `endEx ≤ length`, its body has exactly `endEx - start`
bytes, each one read in-bounds from the full body; the `end + 1` step of
parsing is `usize` arithmetic modulo `2 ^ 64`, under which a parsed end
value of `2 ^ 64 - 1` yields the window `[start, 0)`, always answered with
416 and never served. -/
theorem range_bounds_safety :
    (∀ (body : Bytes) (rs : String) (hit : Bool) (n : String) (st : StatsMap) (a e : Nat),
      parse_range_header rs body.length = some (a, e) →
        (handle_range_response body rs hit n st).1.isSome = true ∧
        ∀ resp, (handle_range_response body rs hit n st).1 = some resp →
          resp.status = 206 →
            a < e ∧ e ≤ body.length ∧ resp.body.length = e - a ∧
            ∀ i, i < e - a → resp.body[i]? = body[a + i]?) ∧
    (∀ (rs : String) (a e : Nat), parseRangeRaw rs = some (a, some e) →
      ∀ L, parse_range_header rs L = some (a, (e + 1) % 2 ^ 64)) ∧
    (∀ (rs : String) (a : Nat), parseRangeRaw rs = some (a, some (2 ^ 64 - 1)) →
      ∀ (body : Bytes) (hit : Bool) (n : String) (st : StatsMap),
        (handle_range_response body rs hit n st).1 = some { status := 416 }) := by
  refine ⟨?_, ?_, ?_⟩
  · intro body rs hit n st a e hp
    by_cases hv : a ≥ body.length ∨ e > body.length ∨ a ≥ e
    · rw [hrr_invalid hp hv]
      refine ⟨rfl, ?_⟩
      intro resp hresp h206
      cases hresp
      simp at h206
    · rw [hrr_valid hp hv]
      push_neg at hv
      obtain ⟨h1, h2, h3⟩ := hv
      refine ⟨rfl, ?_⟩
      intro resp hresp _
      cases hresp
      refine ⟨h3, h2, length_slice body a e h2, ?_⟩
      intro i hi
      simp only [List.getElem?_take, hi, if_pos, List.getElem?_drop]
  · intro rs a e hraw L
    simp [parse_range_header, hraw]
  · intro rs a hraw body hit n st
    have hp : parse_range_header rs body.length = some (a, 0) := by
      simp [parse_range_header, hraw]
    rw [hrr_invalid hp (Or.inr (Or.inr (Nat.zero_le a)))]

/-- Witness for C10: the wrapped window from end value `2 ^ 64 - 1` is
answered with 416 at a concrete header and body. -/
theorem range_bounds_safety_witness :
    (handle_range_response [1, 2, 3] "bytes=0-18446744073709551615" true "log" []).1 =
      some { status := 416 } :=
  range_bounds_safety.2.2 "bytes=0-18446744073709551615" 0 (by decide) [1, 2, 3] true "log" []

/-! ## C3: unparseable Range headers fall back to the full response -/

theorem serve_body_malformed {rs : String} (body : Bytes) (hit : Bool) (n : String)
    (c : Cache) (st : StatsMap) (h : parseRangeRaw rs = none) :
    serve_body body hit (some rs) n c st = serve_body body hit none n c st := by
  simp [serve_body, hrr_parse_none (parse_none_of_raw_none h)]

theorem handle_readme_malformed {rs : String} (readme : Option Bytes) (n : String)
    (st : StatsMap) (h : parseRangeRaw rs = none) :
    handle_readme readme (some rs) n st = handle_readme readme none n st := by
  cases readme with
  | none => rfl
  | some body => simp [handle_readme, hrr_parse_none (parse_none_of_raw_none h)]

/-- Whether the pipeline has a body to serve for this request: the README
file for a README request, otherwise a cached body or a successful
upstream fetch. -/
def bodyAvailable (path : String) (up readme : Option Bytes) (c : Cache) : Bool :=
  if sanitize_path path = "README.md" then readme.isSome
  else (get_cached_body c (sanitize_path path)).1.isSome || up.isSome

/-- C3: a Range header that does not parse as the single exact
`bytes=<start>-<end>` form (comma-separated lists, malformed strings, ...)
is treated exactly as if no Range header were present: the whole outcome
(response, cache, statistics) equals that of the same request without a
Range header, and whenever a body is available the response is the full
200 - never an error status caused by the header. -/
theorem malformed_range_fallback (path rs : String) (up readme : Option Bytes)
    (n : String) (c : Cache) (st : StatsMap) (h : parseRangeRaw rs = none) :
    proxy_handler path (some rs) up readme n c st = proxy_handler path none up readme n c st ∧
    (sanitize_path path ≠ "" → bodyAvailable path up readme c = true →
      (proxy_handler path (some rs) up readme n c st).resp.status = 200) := by
  constructor
  · by_cases h1 : sanitize_path path = ""
    · simp [proxy_handler, h1]
    · by_cases h2 : sanitize_path path = "README.md"
      · simp [proxy_handler, h1, h2, handle_readme_malformed _ _ _ h]
      · cases hl : (get_cached_body c (sanitize_path path)).1 with
        | some body =>
          simp only [proxy_handler, h1, h2, if_neg, if_false]
          rcases hg : get_cached_body c (sanitize_path path) with ⟨b1, c1⟩
          rw [hg] at hl
          subst hl
          simp [serve_body_malformed _ _ _ _ _ h]
        | none =>
          rcases hg : get_cached_body c (sanitize_path path) with ⟨b1, c1⟩
          rw [hg] at hl
          subst hl
          simp only [proxy_handler, h1, h2, if_neg, if_false, hg]
          cases up with
          | none => rfl
          | some body => simp [fetch_and_cache_body, serve_body_malformed _ _ _ _ _ h]
  · intro h1 hav
    by_cases h2 : sanitize_path path = "README.md"
    · simp only [bodyAvailable, h2, if_pos] at hav
      cases readme with
      | none => simp at hav
      | some body =>
        simp [proxy_handler, h1, h2, handle_readme,
          hrr_parse_none (parse_none_of_raw_none h)]
    · simp only [bodyAvailable, h2, if_neg, if_false] at hav
      cases hl : (get_cached_body c (sanitize_path path)).1 with
      | some body =>
        rcases hg : get_cached_body c (sanitize_path path) with ⟨b1, c1⟩
        rw [hg] at hl
        subst hl
        simp [proxy_handler, h1, h2, hg, serve_body,
          hrr_parse_none (parse_none_of_raw_none h)]
      | none =>
        rcases hg : get_cached_body c (sanitize_path path) with ⟨b1, c1⟩
        rw [hg] at hl
        subst hl
        rw [hg] at hav
        simp only [Option.isSome_none, Bool.false_or] at hav
        cases up with
        | none => simp at hav
        | some body =>
          simp [proxy_handler, h1, h2, hg, fetch_and_cache_body, serve_body,
            hrr_parse_none (parse_none_of_raw_none h)]

/-- Witness for C3: a malformed header and a comma-separated list both
fail to parse, and the malformed-header request at a concrete state equals
the no-header request. -/
theorem malformed_range_fallback_witness :
    proxy_handler "x/t/d" (some "invalid-range-format") (some [1, 2]) none "log" [] [] =
      proxy_handler "x/t/d" none (some [1, 2]) none "log" [] [] :=
  (malformed_range_fallback "x/t/d" "invalid-range-format" (some [1, 2]) none "log" [] []
    (by decide)).1

/-! ## Case characterizations of the serving helpers and the dispatcher -/

theorem get_cached_body_hit {c : Cache} {k : String} {v : Bytes}
    (h : cacheLookup c k = some v) :
    get_cached_body c k = (some v, (k, v) :: cacheErase c k) := by
  simp [get_cached_body, LruCache.get, h]

theorem get_cached_body_miss {c : Cache} {k : String} (h : cacheLookup c k = none) :
    get_cached_body c k = (none, c) := by
  simp [get_cached_body, LruCache.get, h]

/-- Exhaustive description of `serve_body`: the cache is untouched and the
outcome is a full 200, a 206 slice, or a 416. -/
theorem serve_body_spec (body : Bytes) (hit : Bool) (rh : Option String)
    (n : String) (c : Cache) (st : StatsMap) :
    (serve_body body hit rh n c st).cache = c ∧
    (((serve_body body hit rh n c st).resp =
        { status := 200, contentLength := some body.length,
          xCache := some (if hit then "HIT" else "MISS"), body := body } ∧
      (serve_body body hit rh n c st).stats =
        bumpStats st n (fun s => { s with bytes_served := s.bytes_served + body.length })) ∨
     (∃ rs a e, rh = some rs ∧ parse_range_header rs body.length = some (a, e) ∧
        a < e ∧ e ≤ body.length ∧
        (serve_body body hit rh n c st).resp =
          { status := 206,
            contentRange := some (contentRangeValue a e body.length),
            contentLength := some (e - a),
            xCache := some (if hit then "HIT" else "MISS"),
            body := (body.drop a).take (e - a) } ∧
        ((body.drop a).take (e - a)).length = e - a ∧
        (serve_body body hit rh n c st).stats =
          bumpStats st n (fun s => { s with bytes_served := s.bytes_served + (e - a) })) ∨
     ((serve_body body hit rh n c st).resp = { status := 416 } ∧
      (serve_body body hit rh n c st).stats = st)) := by
  cases rh with
  | none => exact ⟨rfl, Or.inl ⟨rfl, rfl⟩⟩
  | some rs =>
    cases hp : parse_range_header rs body.length with
    | none =>
      rw [serve_body, hrr_parse_none hp]
      exact ⟨rfl, Or.inl ⟨rfl, rfl⟩⟩
    | some p =>
      obtain ⟨a, e⟩ := p
      by_cases hv : a ≥ body.length ∨ e > body.length ∨ a ≥ e
      · rw [serve_body, hrr_invalid hp hv]
        exact ⟨rfl, Or.inr (Or.inr ⟨rfl, rfl⟩)⟩
      · have hv' := hv
        push_neg at hv'
        obtain ⟨-, h2, h3⟩ := hv'
        rw [serve_body, hrr_valid hp hv]
        exact ⟨rfl, Or.inr (Or.inl ⟨rs, a, e, rfl, hp, h3, h2, rfl,
          length_slice body a e h2, rfl⟩)⟩

/-- Exhaustive description of `handle_readme`: 404 for an unreadable file,
otherwise a full 200 with the markdown content type, a 206 slice, or a
416. -/
theorem handle_readme_spec (readme : Option Bytes) (rh : Option String)
    (n : String) (st : StatsMap) :
    (readme = none → handle_readme readme rh n st = ({ status := 404 }, st)) ∧
    (∀ body, readme = some body →
      ((handle_readme readme rh n st).1 =
          { status := 200, contentType := some "text/markdown; charset=UTF-8",
            contentLength := some body.length, body := body } ∧
        (handle_readme readme rh n st).2 =
          bumpStats st n (fun s => { s with bytes_served := s.bytes_served + body.length })) ∨
      (∃ rs a e, rh = some rs ∧ parse_range_header rs body.length = some (a, e) ∧
        a < e ∧ e ≤ body.length ∧
        (handle_readme readme rh n st).1 =
          { status := 206,
            contentRange := some (contentRangeValue a e body.length),
            contentLength := some (e - a),
            xCache := some "HIT",
            body := (body.drop a).take (e - a) } ∧
        ((body.drop a).take (e - a)).length = e - a ∧
        (handle_readme readme rh n st).2 =
          bumpStats st n (fun s => { s with bytes_served := s.bytes_served + (e - a) })) ∨
      ((handle_readme readme rh n st).1 = { status := 416 } ∧
       (handle_readme readme rh n st).2 = st)) := by
  constructor
  · intro h; subst h; rfl
  · intro body h
    subst h
    cases rh with
    | none => exact Or.inl ⟨rfl, rfl⟩
    | some rs =>
      cases hp : parse_range_header rs body.length with
      | none =>
        rw [handle_readme, hrr_parse_none hp]
        exact Or.inl ⟨rfl, rfl⟩
      | some p =>
        obtain ⟨a, e⟩ := p
        by_cases hv : a ≥ body.length ∨ e > body.length ∨ a ≥ e
        · rw [handle_readme, hrr_invalid hp hv]
          exact Or.inr (Or.inr ⟨rfl, rfl⟩)
        · have hv' := hv
          push_neg at hv'
          obtain ⟨-, h2, h3⟩ := hv'
          rw [handle_readme, hrr_valid hp hv]
          exact Or.inr (Or.inl ⟨rs, a, e, rfl, hp, h3, h2, rfl,
            length_slice body a e h2, rfl⟩)

/-- Exhaustive description of `proxy_handler`: 400 on the sentinel, the
README diversion, a cache hit with `cache_hits` bump, a 502 on a failed
fetch, or a fetch that populates the cache. -/
theorem proxy_handler_cases (path : String) (rh : Option String)
    (up readme : Option Bytes) (n : String) (c : Cache) (st : StatsMap) :
    (sanitize_path path = "" ∧
      proxy_handler path rh up readme n c st =
        ⟨{ status := 400 }, c,
         bumpStats st n (fun s => { s with request_count := s.request_count + 1 })⟩) ∨
    (sanitize_path path ≠ "" ∧ sanitize_path path = "README.md" ∧
      proxy_handler path rh up readme n c st =
        ⟨(handle_readme readme rh n
            (bumpStats st n (fun s => { s with request_count := s.request_count + 1 }))).1, c,
         (handle_readme readme rh n
            (bumpStats st n (fun s => { s with request_count := s.request_count + 1 }))).2⟩) ∨
    (sanitize_path path ≠ "" ∧ sanitize_path path ≠ "README.md" ∧
      ∃ body, cacheLookup c (sanitize_path path) = some body ∧
        proxy_handler path rh up readme n c st =
          serve_body body true rh n
            ((sanitize_path path, body) :: cacheErase c (sanitize_path path))
            (bumpStats
              (bumpStats st n (fun s => { s with request_count := s.request_count + 1 }))
              n (fun s => { s with cache_hits := s.cache_hits + 1 }))) ∨
    (sanitize_path path ≠ "" ∧ sanitize_path path ≠ "README.md" ∧
      cacheLookup c (sanitize_path path) = none ∧ up = none ∧
      proxy_handler path rh up readme n c st =
        ⟨{ status := 502 }, c,
         bumpStats st n (fun s => { s with request_count := s.request_count + 1 })⟩) ∨
    (sanitize_path path ≠ "" ∧ sanitize_path path ≠ "README.md" ∧
      cacheLookup c (sanitize_path path) = none ∧
      ∃ body, up = some body ∧
        proxy_handler path rh up readme n c st =
          serve_body body false rh n
            (LruCache.put c logCacheCapacity (sanitize_path path) body)
            (bumpStats st n (fun s => { s with request_count := s.request_count + 1 }))) := by
  by_cases h1 : sanitize_path path = ""
  · exact Or.inl ⟨h1, by simp [proxy_handler, h1]⟩
  · by_cases h2 : sanitize_path path = "README.md"
    · exact Or.inr (Or.inl ⟨h1, h2, by simp [proxy_handler, h1, h2]⟩)
    · cases hl : cacheLookup c (sanitize_path path) with
      | some body =>
        refine Or.inr (Or.inr (Or.inl ⟨h1, h2, body, rfl, ?_⟩))
        simp [proxy_handler, h1, h2, get_cached_body_hit hl]
      | none =>
        cases hu : up with
        | none =>
          refine Or.inr (Or.inr (Or.inr (Or.inl ⟨h1, h2, rfl, rfl, ?_⟩)))
          simp [proxy_handler, h1, h2, get_cached_body_miss hl, fetch_and_cache_body]
        | some body =>
          refine Or.inr (Or.inr (Or.inr (Or.inr ⟨h1, h2, rfl, body, rfl, ?_⟩)))
          simp [proxy_handler, h1, h2, get_cached_body_miss hl, fetch_and_cache_body]

/-! ## C5: the X-Cache header -/

/-- Counterexample to C5 as stated: a full-body README response has status
200 but carries no `X-Cache` header at all. -/
theorem xcache_readme_counterexample :
    (proxy_handler "x/README.md" none none (some [104, 105]) "log" [] []).resp.status = 200 ∧
    (proxy_handler "x/README.md" none none (some [104, 105]) "log" [] []).resp.xCache = none := by
  constructor <;> decide

/-- C5 (amended): every 206 response and every 200 response outside the
full-body README case carries `X-Cache: HIT` or `X-Cache: MISS`; the
full-body README 200 response carries no `X-Cache` header. -/
theorem xcache_on_success (path : String) (rh : Option String)
    (up readme : Option Bytes) (n : String) (c : Cache) (st : StatsMap) :
    ((proxy_handler path rh up readme n c st).resp.status = 206 →
      (proxy_handler path rh up readme n c st).resp.xCache = some "HIT" ∨
      (proxy_handler path rh up readme n c st).resp.xCache = some "MISS") ∧
    ((proxy_handler path rh up readme n c st).resp.status = 200 →
      sanitize_path path ≠ "README.md" →
      (proxy_handler path rh up readme n c st).resp.xCache = some "HIT" ∨
      (proxy_handler path rh up readme n c st).resp.xCache = some "MISS") ∧
    ((proxy_handler path rh up readme n c st).resp.status = 200 →
      sanitize_path path = "README.md" →
      (proxy_handler path rh up readme n c st).resp.xCache = none) := by
  rcases proxy_handler_cases path rh up readme n c st with
    ⟨h1, hout⟩ | ⟨h1, h2, hout⟩ | ⟨h1, h2, body, hl, hout⟩ |
    ⟨h1, h2, hl, hu, hout⟩ | ⟨h1, h2, hl, body, hu, hout⟩
  · rw [hout]
    refine ⟨?_, ?_, ?_⟩ <;> intro h <;> simp at h
  · cases readme with
    | none =>
      have h404 := (handle_readme_spec none rh n
        (bumpStats st n (fun s => { s with request_count := s.request_count + 1 }))).1 rfl
      rw [hout]
      refine ⟨?_, ?_, ?_⟩ <;> rw [h404] <;> intro h <;> simp at h
    | some body =>
      rcases (handle_readme_spec (some body) rh n
          (bumpStats st n (fun s => { s with request_count := s.request_count + 1 }))).2
          body rfl with ⟨hr, -⟩ | ⟨rs, a, e, -, -, -, -, hr, -, -⟩ | ⟨hr, -⟩
      · rw [hout]
        refine ⟨?_, ?_, ?_⟩ <;> rw [hr] <;> intro h
        · simp at h
        · intro hne; exact absurd h2 hne
        · intro _; rfl
      · rw [hout]
        refine ⟨?_, ?_, ?_⟩ <;> rw [hr] <;> intro h
        · exact Or.inl rfl
        · simp at h
        · simp at h
      · rw [hout]
        refine ⟨?_, ?_, ?_⟩ <;> rw [hr] <;> intro h <;> simp at h
  · rcases serve_body_spec body true rh n
        ((sanitize_path path, body) :: cacheErase c (sanitize_path path))
        (bumpStats
          (bumpStats st n (fun s => { s with request_count := s.request_count + 1 }))
          n (fun s => { s with cache_hits := s.cache_hits + 1 })) with
      ⟨-, ⟨hr, -⟩ | ⟨rs, a, e, -, -, -, -, hr, -, -⟩ | ⟨hr, -⟩⟩
    · rw [hout]
      refine ⟨?_, ?_, ?_⟩ <;> rw [hr] <;> intro h
      · simp at h
      · intro _; exact Or.inl rfl
      · intro hre; exact absurd hre h2
    · rw [hout]
      refine ⟨?_, ?_, ?_⟩ <;> rw [hr] <;> intro h
      · exact Or.inl rfl
      · simp at h
      · simp at h
    · rw [hout]
      refine ⟨?_, ?_, ?_⟩ <;> rw [hr] <;> intro h <;> simp at h
  · rw [hout]
    refine ⟨?_, ?_, ?_⟩ <;> intro h <;> simp at h
  · rcases serve_body_spec body false rh n
        (LruCache.put c logCacheCapacity (sanitize_path path) body)
        (bumpStats st n (fun s => { s with request_count := s.request_count + 1 })) with
      ⟨-, ⟨hr, -⟩ | ⟨rs, a, e, -, -, -, -, hr, -, -⟩ | ⟨hr, -⟩⟩
    · rw [hout]
      refine ⟨?_, ?_, ?_⟩ <;> rw [hr] <;> intro h
      · simp at h
      · intro _; exact Or.inr rfl
      · intro hre; exact absurd hre h2
    · rw [hout]
      refine ⟨?_, ?_, ?_⟩ <;> rw [hr] <;> intro h
      · exact Or.inr rfl
      · simp at h
      · simp at h
    · rw [hout]
      refine ⟨?_, ?_, ?_⟩ <;> rw [hr] <;> intro h <;> simp at h

/-- Witness for C5 (amended) at a concrete cache-hit request. -/
theorem xcache_on_success_witness :
    (proxy_handler "x/t/d" none none none "log" [("t/d", [5, 6, 7])] []).resp.xCache =
        some "HIT" ∨
    (proxy_handler "x/t/d" none none none "log" [("t/d", [5, 6, 7])] []).resp.xCache =
        some "MISS" :=
  (xcache_on_success "x/t/d" none none none "log" [("t/d", [5, 6, 7])] []).2.1
    (by decide) (by decide)

/-! ## C6: the README diversion -/

/-- The response part of `handle_range_response` does not depend on the
statistics map. -/
theorem hrr_fst_stats_irrel (body : Bytes) (rs : String) (hit : Bool)
    (n : String) (st st' : StatsMap) :
    (handle_range_response body rs hit n st).1 =
      (handle_range_response body rs hit n st').1 := by
  cases hp : parse_range_header rs body.length with
  | none => rw [hrr_parse_none hp, hrr_parse_none hp]
  | some p =>
    obtain ⟨a, e⟩ := p
    by_cases hv : a ≥ body.length ∨ e > body.length ∨ a ≥ e
    · rw [hrr_invalid hp hv, hrr_invalid hp hv]
    · rw [hrr_valid hp hv, hrr_valid hp hv]

/-- When the range resolver produces a response on the README bytes,
`handle_readme` returns exactly that response. -/
theorem handle_readme_range (body : Bytes) (rs : String) (n : String)
    (st : StatsMap) (resp : HttpResponse)
    (h : (handle_range_response body rs true n st).1 = some resp) :
    (handle_readme (some body) (some rs) n st).1 = resp := by
  rcases hr : handle_range_response body rs true n st with ⟨o, st'⟩
  rw [hr] at h
  simp only at h
  subst h
  simp [handle_readme, hr]

/-- Counterexample to C6 as stated: a README range request yields a 206
response with no `Content-Type` header, so not every README response
carries `text/markdown; charset=UTF-8`. -/
theorem readme_content_type_counterexample :
    (proxy_handler "x/README.md" (some "bytes=0-0") none (some [104, 105])
        "log" [] []).resp.status = 206 ∧
    (proxy_handler "x/README.md" (some "bytes=0-0") none (some [104, 105])
        "log" [] []).resp.contentType = none := by
  constructor <;> decide

/-- C6 (amended): for a request whose sanitized path is `README.md` the
dispatcher touches neither the cache (which would reorder on a lookup) nor
the upstream (the outcome is identical with the upstream fetch removed); a
parseable Range header is resolved by `handle_range_response` on the file
bytes exactly as on the proxy path; an unreadable README file yields 404;
the full-body 200 README response carries
`Content-Type: text/markdown; charset=UTF-8`, while README 206 and 416
responses carry no `Content-Type` header. -/
theorem readme_divert_semantics (path : String) (rh : Option String)
    (up readme : Option Bytes) (n : String) (c : Cache) (st : StatsMap)
    (h2 : sanitize_path path = "README.md") :
    (proxy_handler path rh up readme n c st).cache = c ∧
    proxy_handler path rh up readme n c st = proxy_handler path rh none readme n c st ∧
    (readme = none → (proxy_handler path rh up readme n c st).resp = { status := 404 }) ∧
    (∀ body rs resp st', readme = some body → rh = some rs →
      (handle_range_response body rs true n st').1 = some resp →
      (proxy_handler path rh up readme n c st).resp = resp) ∧
    (readme ≠ none → (proxy_handler path rh up readme n c st).resp.status = 200 →
      (proxy_handler path rh up readme n c st).resp.contentType =
        some "text/markdown; charset=UTF-8") ∧
    ((proxy_handler path rh up readme n c st).resp.status = 206 ∨
      (proxy_handler path rh up readme n c st).resp.status = 416 →
      (proxy_handler path rh up readme n c st).resp.contentType = none) := by
  have h1 : sanitize_path path ≠ "" := by rw [h2]; decide
  have hout : ∀ u : Option Bytes, proxy_handler path rh u readme n c st =
      ⟨(handle_readme readme rh n
          (bumpStats st n (fun s => { s with request_count := s.request_count + 1 }))).1, c,
       (handle_readme readme rh n
          (bumpStats st n (fun s => { s with request_count := s.request_count + 1 }))).2⟩ := by
    intro u
    simp [proxy_handler, h1, h2]
  refine ⟨by rw [hout up], by rw [hout up, hout none], ?_, ?_, ?_, ?_⟩
  · intro h
    subst h
    rw [hout up]
    have h404 := (handle_readme_spec none rh n
      (bumpStats st n (fun s => { s with request_count := s.request_count + 1 }))).1 rfl
    rw [h404]
  · intro body rs resp st' hb hrs hresp
    subst hb
    subst hrs
    rw [hout up]
    exact handle_readme_range body rs n _ resp
      ((hrr_fst_stats_irrel body rs true n _ st').trans hresp)
  · intro hne h200
    rw [hout up] at h200 ⊢
    cases readme with
    | none => exact absurd rfl hne
    | some body =>
      rcases (handle_readme_spec (some body) rh n
          (bumpStats st n (fun s => { s with request_count := s.request_count + 1 }))).2
          body rfl with ⟨hr, -⟩ | ⟨rs, a, e, -, -, -, -, hr, -, -⟩ | ⟨hr, -⟩
      · rw [hr]
      · rw [hr] at h200; simp at h200
      · rw [hr] at h200; simp at h200
  · intro hst
    rw [hout up] at hst ⊢
    cases readme with
    | none =>
      have h404 := (handle_readme_spec none rh n
        (bumpStats st n (fun s => { s with request_count := s.request_count + 1 }))).1 rfl
      rw [h404] at hst ⊢
    | some body =>
      rcases (handle_readme_spec (some body) rh n
          (bumpStats st n (fun s => { s with request_count := s.request_count + 1 }))).2
          body rfl with ⟨hr, -⟩ | ⟨rs, a, e, -, -, -, -, hr, -, -⟩ | ⟨hr, -⟩
      · rw [hr] at hst ⊢
        rcases hst with h | h <;> simp at h
      · rw [hr]
      · rw [hr]

/-- Witness for C6 (amended): the 404 case at a concrete request. -/
theorem readme_divert_semantics_witness :
    (proxy_handler "x/README.md" none (some [9]) none "log" [] []).resp =
      { status := 404 } :=
  (readme_divert_semantics "x/README.md" none (some [9]) none "log" [] []
    (by decide)).2.2.1 rfl

/-! ## C7: failed fetches cache nothing and yield 502 -/

/-- C7: a failed upstream fetch (transport error, non-2xx status, or
body-read error, all of which make the fetch outcome `none`) inserts
nothing into the cache, and on the dispatcher's miss path yields 502 with
the cache unchanged and no statistics change beyond the initial
`request_count` increment; a successful fetch inserts the full body into
the cache under the sanitized path and returns those same bytes. -/
theorem fetch_failure_and_success (path : String) (rh : Option String)
    (up readme : Option Bytes) (n : String) (c : Cache) (st : StatsMap)
    (b : Bytes) (k : String) :
    fetch_and_cache_body none c k = (none, c) ∧
    fetch_and_cache_body (some b) c k =
      (some b, LruCache.put c logCacheCapacity k b) ∧
    (sanitize_path path ≠ "" → sanitize_path path ≠ "README.md" →
      cacheLookup c (sanitize_path path) = none → up = none →
        (proxy_handler path rh up readme n c st).resp = { status := 502 } ∧
        (proxy_handler path rh up readme n c st).cache = c ∧
        statsGet (proxy_handler path rh up readme n c st).stats n =
          { statsGet st n with
              request_count := (statsGet st n).request_count + 1 }) ∧
    (sanitize_path path ≠ "" → sanitize_path path ≠ "README.md" →
      cacheLookup c (sanitize_path path) = none → up = some b →
        (proxy_handler path rh up readme n c st).cache =
          LruCache.put c logCacheCapacity (sanitize_path path) b) := by
  refine ⟨rfl, rfl, ?_, ?_⟩
  · intro h1 h2 hl hu
    subst hu
    have hout : proxy_handler path rh none readme n c st =
        ⟨{ status := 502 }, c,
         bumpStats st n (fun s => { s with request_count := s.request_count + 1 })⟩ := by
      simp [proxy_handler, h1, h2, get_cached_body_miss hl, fetch_and_cache_body]
    rw [hout]
    exact ⟨rfl, rfl, statsGet_bumpStats_same st n _⟩
  · intro h1 h2 hl hu
    subst hu
    have hout : proxy_handler path rh (some b) readme n c st =
        serve_body b false rh n
          (LruCache.put c logCacheCapacity (sanitize_path path) b)
          (bumpStats st n (fun s => { s with request_count := s.request_count + 1 })) := by
      simp [proxy_handler, h1, h2, get_cached_body_miss hl, fetch_and_cache_body]
    rw [hout]
    exact (serve_body_spec b false rh n _ _).1

/-- Witness for C7: a concrete failed fetch gives 502 and leaves cache and
counters (beyond `request_count`) unchanged. -/
theorem fetch_failure_and_success_witness :
    (proxy_handler "x/t/d" none none none "log" [] []).resp = { status := 502 } ∧
    (proxy_handler "x/t/d" none none none "log" [] []).cache = [] ∧
    statsGet (proxy_handler "x/t/d" none none none "log" [] []).stats "log" =
      { statsGet ([] : StatsMap) "log" with
          request_count := (statsGet ([] : StatsMap) "log").request_count + 1 } :=
  (fetch_failure_and_success "x/t/d" none none none "log" [] [] [] "k").2.2.1
    (by decide) (by decide) (by decide) rfl

/-! ## C8: request and hit counters -/

theorem serve_body_stats_fixed (b : Bytes) (hi : Bool) (rh : Option String)
    (n : String) (cc : Cache) (g : StatsMap) :
    (statsGet (serve_body b hi rh n cc g).stats n).request_count =
      (statsGet g n).request_count ∧
    (statsGet (serve_body b hi rh n cc g).stats n).cache_hits =
      (statsGet g n).cache_hits := by
  rcases serve_body_spec b hi rh n cc g with
    ⟨-, ⟨-, hs⟩ | ⟨rs, a, e, -, -, -, -, -, -, hs⟩ | ⟨-, hs⟩⟩ <;>
    rw [hs] <;> simp [statsGet_bumpStats_same]

theorem handle_readme_stats_fixed (readme : Option Bytes) (rh : Option String)
    (n : String) (g : StatsMap) :
    (statsGet (handle_readme readme rh n g).2 n).request_count =
      (statsGet g n).request_count ∧
    (statsGet (handle_readme readme rh n g).2 n).cache_hits =
      (statsGet g n).cache_hits := by
  cases readme with
  | none =>
    rw [(handle_readme_spec none rh n g).1 rfl]
    exact ⟨rfl, rfl⟩
  | some body =>
    rcases (handle_readme_spec (some body) rh n g).2 body rfl with
      ⟨-, hs⟩ | ⟨rs, a, e, -, -, -, -, -, -, hs⟩ | ⟨-, hs⟩ <;>
      rw [hs] <;> simp [statsGet_bumpStats_same]

/-- C8: `request_count` grows by exactly one on every request - including
requests rejected with 400 before any cache or fetch work, witnessing that
the increment precedes sanitization - while `cache_hits` grows by at most
one, grows exactly when the body was served from the cache (the lookup on
the sanitized path succeeded, `is_cache_hit` in the code), and the
invariant `cache_hits ≤ request_count` is preserved. -/
theorem stats_counters (path : String) (rh : Option String)
    (up readme : Option Bytes) (n : String) (c : Cache) (st : StatsMap) :
    (statsGet (proxy_handler path rh up readme n c st).stats n).request_count =
      (statsGet st n).request_count + 1 ∧
    (statsGet (proxy_handler path rh up readme n c st).stats n).cache_hits ≤
      (statsGet st n).cache_hits + 1 ∧
    ((statsGet (proxy_handler path rh up readme n c st).stats n).cache_hits ≠
        (statsGet st n).cache_hits →
      sanitize_path path ≠ "" ∧ sanitize_path path ≠ "README.md" ∧
      (cacheLookup c (sanitize_path path)).isSome = true) ∧
    (sanitize_path path ≠ "" → sanitize_path path ≠ "README.md" →
      (cacheLookup c (sanitize_path path)).isSome = true →
      (statsGet (proxy_handler path rh up readme n c st).stats n).cache_hits =
        (statsGet st n).cache_hits + 1) ∧
    ((statsGet st n).cache_hits ≤ (statsGet st n).request_count →
      (statsGet (proxy_handler path rh up readme n c st).stats n).cache_hits ≤
        (statsGet (proxy_handler path rh up readme n c st).stats n).request_count) := by
  rcases proxy_handler_cases path rh up readme n c st with
    ⟨h1, hout⟩ | ⟨h1, h2, hout⟩ | ⟨h1, h2, body, hl, hout⟩ |
    ⟨h1, h2, hl, hu, hout⟩ | ⟨h1, h2, hl, body, hu, hout⟩
  · rw [hout]
    refine ⟨?_, ?_, ?_, ?_, ?_⟩
    · simp [statsGet_bumpStats_same]
    · simp [statsGet_bumpStats_same]
    · intro h; simp [statsGet_bumpStats_same] at h
    · intro ha _ _; exact absurd h1 ha
    · intro h; simp [statsGet_bumpStats_same]; omega
  · obtain ⟨hr, hh⟩ := handle_readme_stats_fixed readme rh n
      (bumpStats st n (fun s => { s with request_count := s.request_count + 1 }))
    have hst : (proxy_handler path rh up readme n c st).stats =
        (handle_readme readme rh n
          (bumpStats st n (fun s => { s with request_count := s.request_count + 1 }))).2 := by
      rw [hout]
    rw [hst, hr, hh]
    refine ⟨?_, ?_, ?_, ?_, ?_⟩
    · simp [statsGet_bumpStats_same]
    · simp [statsGet_bumpStats_same]
    · intro h; simp [statsGet_bumpStats_same] at h
    · intro _ ha _; exact absurd h2 ha
    · intro h; simp [statsGet_bumpStats_same]; omega
  · obtain ⟨hr, hh⟩ := serve_body_stats_fixed body true rh n
      ((sanitize_path path, body) :: cacheErase c (sanitize_path path))
      (bumpStats
        (bumpStats st n (fun s => { s with request_count := s.request_count + 1 }))
        n (fun s => { s with cache_hits := s.cache_hits + 1 }))
    have hst : (proxy_handler path rh up readme n c st).stats =
        (serve_body body true rh n
          ((sanitize_path path, body) :: cacheErase c (sanitize_path path))
          (bumpStats
            (bumpStats st n (fun s => { s with request_count := s.request_count + 1 }))
            n (fun s => { s with cache_hits := s.cache_hits + 1 }))).stats := by
      rw [hout]
    rw [hst, hr, hh]
    refine ⟨?_, ?_, ?_, ?_, ?_⟩
    · simp [statsGet_bumpStats_same]
    · simp [statsGet_bumpStats_same]
    · intro _; exact ⟨h1, h2, by rw [hl]; rfl⟩
    · intro _ _ _; simp [statsGet_bumpStats_same]
    · intro h; simp [statsGet_bumpStats_same]; omega
  · rw [hout]
    refine ⟨?_, ?_, ?_, ?_, ?_⟩
    · simp [statsGet_bumpStats_same]
    · simp [statsGet_bumpStats_same]
    · intro h; simp [statsGet_bumpStats_same] at h
    · intro _ _ hs; rw [hl] at hs; simp at hs
    · intro h; simp [statsGet_bumpStats_same]; omega
  · obtain ⟨hr, hh⟩ := serve_body_stats_fixed body false rh n
      (LruCache.put c logCacheCapacity (sanitize_path path) body)
      (bumpStats st n (fun s => { s with request_count := s.request_count + 1 }))
    have hst : (proxy_handler path rh up readme n c st).stats =
        (serve_body body false rh n
          (LruCache.put c logCacheCapacity (sanitize_path path) body)
          (bumpStats st n
            (fun s => { s with request_count := s.request_count + 1 }))).stats := by
      rw [hout]
    rw [hst, hr, hh]
    refine ⟨?_, ?_, ?_, ?_, ?_⟩
    · simp [statsGet_bumpStats_same]
    · simp [statsGet_bumpStats_same]
    · intro h; simp [statsGet_bumpStats_same] at h
    · intro _ _ hs; rw [hl] at hs; simp at hs
    · intro h; simp [statsGet_bumpStats_same]; omega

/-- Witness for C8 at a concrete cache-hit request over a nonzero counter
state. -/
theorem stats_counters_witness :
    (statsGet (proxy_handler "x/t/d" none none none "log" [("t/d", [5])]
        [("log", ⟨9, 4, 2⟩)]).stats "log").cache_hits =
      (statsGet [("log", (⟨9, 4, 2⟩ : LogStats))] "log").cache_hits + 1 :=
  (stats_counters "x/t/d" none none none "log" [("t/d", [5])]
    [("log", ⟨9, 4, 2⟩)]).2.2.2.1 (by decide) (by decide) (by decide)

/-! ## C9: bytes_served accounting -/

/-- C9: per request, `bytes_served` for the origin grows by exactly the
payload length of the response: the slice length `endEx - start` for a 206,
the full body length for a 200 (whose payload is the README file, the
cached body, or the fetched body), and nothing for 400, 404, 416 and 502
responses, whose payload is empty. -/
theorem bytes_served_accounting (path : String) (rh : Option String)
    (up readme : Option Bytes) (n : String) (c : Cache) (st : StatsMap) :
    (statsGet (proxy_handler path rh up readme n c st).stats n).bytes_served =
      (statsGet st n).bytes_served +
        (proxy_handler path rh up readme n c st).resp.body.length ∧
    ((proxy_handler path rh up readme n c st).resp.status = 400 ∨
      (proxy_handler path rh up readme n c st).resp.status = 404 ∨
      (proxy_handler path rh up readme n c st).resp.status = 416 ∨
      (proxy_handler path rh up readme n c st).resp.status = 502 →
      (proxy_handler path rh up readme n c st).resp.body = []) ∧
    ((proxy_handler path rh up readme n c st).resp.status = 206 →
      ∃ rs a e bdy, rh = some rs ∧
        parse_range_header rs (List.length bdy) = some (a, e) ∧
        a < e ∧ e ≤ List.length bdy ∧
        (proxy_handler path rh up readme n c st).resp.body =
          (List.take (e - a) (List.drop a bdy)) ∧
        (proxy_handler path rh up readme n c st).resp.body.length = e - a) ∧
    ((proxy_handler path rh up readme n c st).resp.status = 200 →
      (proxy_handler path rh up readme n c st).resp.contentLength =
        some (proxy_handler path rh up readme n c st).resp.body.length ∧
      ((sanitize_path path = "README.md" ∧
        readme = some (proxy_handler path rh up readme n c st).resp.body) ∨
       (sanitize_path path ≠ "README.md" ∧
        (cacheLookup c (sanitize_path path) =
            some (proxy_handler path rh up readme n c st).resp.body ∨
         (cacheLookup c (sanitize_path path) = none ∧
          up = some (proxy_handler path rh up readme n c st).resp.body))))) := by
  rcases proxy_handler_cases path rh up readme n c st with
    ⟨h1, hout⟩ | ⟨h1, h2, hout⟩ | ⟨h1, h2, body, hl, hout⟩ |
    ⟨h1, h2, hl, hu, hout⟩ | ⟨h1, h2, hl, body, hu, hout⟩
  · rw [hout]
    refine ⟨by simp [statsGet_bumpStats_same], fun _ => rfl, ?_, ?_⟩ <;>
      intro h <;> simp at h
  · rw [hout]
    cases readme with
    | none =>
      rw [(handle_readme_spec none rh n
        (bumpStats st n (fun s => { s with request_count := s.request_count + 1 }))).1 rfl]
      refine ⟨by simp [statsGet_bumpStats_same], fun _ => rfl, ?_, ?_⟩ <;>
        intro h <;> simp at h
    | some body =>
      rcases (handle_readme_spec (some body) rh n
          (bumpStats st n (fun s => { s with request_count := s.request_count + 1 }))).2
          body rfl with
        ⟨hresp, hs⟩ | ⟨rs, a, e, hrs, hp, hae, hel, hresp, hlen, hs⟩ | ⟨hresp, hs⟩
      · rw [hresp, hs]
        refine ⟨by simp [statsGet_bumpStats_same], ?_, ?_, ?_⟩
        · intro h; simp at h
        · intro h; simp at h
        · intro _; exact ⟨rfl, Or.inl ⟨h2, rfl⟩⟩
      · rw [hresp, hs]
        refine ⟨?_, ?_, ?_, ?_⟩
        · simp only [statsGet_bumpStats_same]
          simp [hlen]
        · intro h; simp at h
        · intro _
          exact ⟨rs, a, e, body, hrs, hp, hae, hel, by simp, by simp [hlen]⟩
        · intro h; simp at h
      · rw [hresp, hs]
        refine ⟨by simp [statsGet_bumpStats_same], fun _ => rfl, ?_, ?_⟩ <;>
          intro h <;> simp at h
  · rw [hout]
    rcases serve_body_spec body true rh n
        ((sanitize_path path, body) :: cacheErase c (sanitize_path path))
        (bumpStats
          (bumpStats st n (fun s => { s with request_count := s.request_count + 1 }))
          n (fun s => { s with cache_hits := s.cache_hits + 1 })) with
      ⟨-, ⟨hresp, hs⟩ | ⟨rs, a, e, hrs, hp, hae, hel, hresp, hlen, hs⟩ | ⟨hresp, hs⟩⟩
    · rw [hresp, hs]
      refine ⟨by simp [statsGet_bumpStats_same], ?_, ?_, ?_⟩
      · intro h; simp at h
      · intro h; simp at h
      · intro _; exact ⟨rfl, Or.inr ⟨h2, Or.inl (by rw [hl])⟩⟩
    · rw [hresp, hs]
      refine ⟨?_, ?_, ?_, ?_⟩
      · simp only [statsGet_bumpStats_same]
        simp [hlen]
      · intro h; simp at h
      · intro _
        exact ⟨rs, a, e, body, hrs, hp, hae, hel, by simp, by simp [hlen]⟩
      · intro h; simp at h
    · rw [hresp, hs]
      refine ⟨by simp [statsGet_bumpStats_same], fun _ => rfl, ?_, ?_⟩ <;>
        intro h <;> simp at h
  · rw [hout]
    refine ⟨by simp [statsGet_bumpStats_same], fun _ => rfl, ?_, ?_⟩ <;>
      intro h <;> simp at h
  · rw [hout]
    rcases serve_body_spec body false rh n
        (LruCache.put c logCacheCapacity (sanitize_path path) body)
        (bumpStats st n (fun s => { s with request_count := s.request_count + 1 })) with
      ⟨-, ⟨hresp, hs⟩ | ⟨rs, a, e, hrs, hp, hae, hel, hresp, hlen, hs⟩ | ⟨hresp, hs⟩⟩
    · rw [hresp, hs]
      refine ⟨by simp [statsGet_bumpStats_same], ?_, ?_, ?_⟩
      · intro h; simp at h
      · intro h; simp at h
      · intro _; exact ⟨rfl, Or.inr ⟨h2, Or.inr ⟨hl, by rw [hu]⟩⟩⟩
    · rw [hresp, hs]
      refine ⟨?_, ?_, ?_, ?_⟩
      · simp only [statsGet_bumpStats_same]
        simp [hlen]
      · intro h; simp at h
      · intro _
        exact ⟨rs, a, e, body, hrs, hp, hae, hel, by simp, by simp [hlen]⟩
      · intro h; simp at h
    · rw [hresp, hs]
      refine ⟨by simp [statsGet_bumpStats_same], fun _ => rfl, ?_, ?_⟩ <;>
        intro h <;> simp at h

/-- Witness for C9: a concrete 206 slice adds exactly the slice length. -/
theorem bytes_served_accounting_witness :
    (statsGet (proxy_handler "x/t/d" (some "bytes=1-1") none none "log"
        [("t/d", [5, 6, 7])] []).stats "log").bytes_served =
      (statsGet ([] : StatsMap) "log").bytes_served +
        (proxy_handler "x/t/d" (some "bytes=1-1") none none "log"
          [("t/d", [5, 6, 7])] []).resp.body.length :=
  (bytes_served_accounting "x/t/d" (some "bytes=1-1") none none "log"
    [("t/d", [5, 6, 7])] []).1

/-! ## C2: path sanitization -/

theorem splitChar_ne_nil (sep : Char) (cs : List Char) : splitChar sep cs ≠ [] := by
  cases cs with
  | nil => simp [splitChar]
  | cons c rest =>
    simp only [splitChar]
    split
    · simp
    · split <;> simp

theorem splitChar_head_ne_nil (cs : List Char) (hne : cs ≠ [])
    (habs : hasPfx ['/'] cs = false) :
    ∀ s rest, splitChar '/' cs = s :: rest → s ≠ [] := by
  cases cs with
  | nil => exact absurd rfl hne
  | cons c tl =>
    intro s rest h
    have hc : ¬ c = '/' := by
      intro he
      subst he
      simp [hasPfx] at habs
    rw [splitChar, if_neg hc] at h
    cases hsp : splitChar '/' tl with
    | nil => rw [hsp] at h; injection h with h1 _; subst h1; simp
    | cons h2 t2 => rw [hsp] at h; injection h with h1 _; subst h1; simp

theorem collectNormal_curDir (tl : List RComp) :
    collectNormal (RComp.curDir :: tl) = none := rfl

theorem collectNormal_rootDir (tl : List RComp) :
    collectNormal (RComp.rootDir :: tl) = none := rfl

theorem collectNormal_normal (s : String) (tl : List RComp) :
    collectNormal (RComp.normal s :: tl) = (collectNormal tl).map (s :: ·) := rfl

theorem normalizeRel_nil : normalizeRel [] = [] := rfl

theorem normalizeRel_curDir (tl : List RComp) :
    normalizeRel (RComp.curDir :: tl) =
      RComp.curDir :: tl.filter (· ≠ RComp.curDir) := rfl

theorem normalizeRel_normal (s : String) (tl : List RComp) :
    normalizeRel (RComp.normal s :: tl) =
      (RComp.normal s :: tl).filter (· ≠ RComp.curDir) := rfl

theorem normalizeRel_rootDir (tl : List RComp) :
    normalizeRel (RComp.rootDir :: tl) =
      (RComp.rootDir :: tl).filter (· ≠ RComp.curDir) := rfl

theorem normalizeRel_parentDir (tl : List RComp) :
    normalizeRel (RComp.parentDir :: tl) =
      (RComp.parentDir :: tl).filter (· ≠ RComp.curDir) := rfl

theorem collectNormal_parentDir (l : List RComp) (h : RComp.parentDir ∈ l) :
    collectNormal l = none := by
  induction l with
  | nil => simp at h
  | cons hd tl ih =>
    cases hd with
    | normal s =>
      have htl : RComp.parentDir ∈ tl := by
        rcases List.mem_cons.1 h with he | hm
        · exact absurd he (by simp)
        · exact hm
      simp [collectNormal_normal, ih htl]
    | parentDir => rfl
    | rootDir => rfl
    | curDir => rfl

theorem collectNormal_filtered (ss : List (List Char)) (h : ['.', '.'] ∉ ss) :
    collectNormal (((ss.filter (· ≠ [])).map toComp).filter (· ≠ RComp.curDir)) =
      some ((ss.filter (fun s => s ≠ [] ∧ s ≠ ['.'])).map String.mk) := by
  induction ss with
  | nil => rfl
  | cons s tl ih =>
    have hdd : s ≠ ['.', '.'] := by
      rintro rfl
      exact h (List.mem_cons_self _ _)
    have htl : ['.', '.'] ∉ tl := fun hm => h (List.mem_cons_of_mem _ hm)
    have ih' := ih htl
    by_cases h0 : s = []
    · subst h0
      simpa [List.filter_cons] using ih'
    · by_cases h1 : s = ['.']
      · subst h1
        simpa [List.filter_cons, toComp] using ih'
      · have hcomp : toComp s = RComp.normal (String.mk s) := by
          simp [toComp, h1, hdd]
        simp at ih'
        simp [List.filter_cons, h0, h1, hcomp, collectNormal_normal, ih']

theorem rustComponents_bad (r : List Char)
    (h : ['.', '.'] ∈ splitChar '/' r ∨ hasPfx ['/'] r = true ∨
      (splitChar '/' r).head? = some ['.']) :
    collectNormal (rustComponents r) = none := by
  by_cases habs : hasPfx ['/'] r = true
  · rw [rustComponents, if_pos habs]
    exact collectNormal_rootDir _
  · rcases h with hdd | habs' | hdot
    · have hmem : RComp.parentDir ∈ ((splitChar '/' r).filter (· ≠ [])).map toComp := by
        refine List.mem_map.2 ⟨['.', '.'], List.mem_filter.2 ⟨hdd, by decide⟩, by decide⟩
      rw [rustComponents, if_neg habs]
      rcases hc : ((splitChar '/' r).filter (· ≠ [])).map toComp with _ | ⟨hd, tl⟩
      · rw [hc] at hmem; simp at hmem
      · rw [hc] at hmem
        rw [hc]
        cases hd with
        | curDir => rw [normalizeRel_curDir]; exact collectNormal_curDir _
        | rootDir =>
          rw [normalizeRel_rootDir]
          apply collectNormal_parentDir
          exact List.mem_filter.2 ⟨hmem, by decide⟩
        | parentDir =>
          rw [normalizeRel_parentDir]
          apply collectNormal_parentDir
          exact List.mem_filter.2 ⟨hmem, by decide⟩
        | normal s =>
          rw [normalizeRel_normal]
          apply collectNormal_parentDir
          exact List.mem_filter.2 ⟨hmem, by decide⟩
    · exact absurd habs' habs
    · rcases hseg : splitChar '/' r with _ | ⟨s0, rest⟩
      · exact absurd hseg (splitChar_ne_nil '/' r)
      · rw [hseg] at hdot
        simp only [List.head?] at hdot
        have hs0 : s0 = ['.'] := by injection hdot
        subst hs0
        rw [rustComponents, if_neg habs, hseg]
        have hred : (((['.'] :: rest).filter (· ≠ [])).map toComp) =
            RComp.curDir :: ((rest.filter (· ≠ [])).map toComp) := by
          simp [List.filter_cons, toComp]
        rw [hred, normalizeRel_curDir]
        exact collectNormal_curDir _

theorem rustComponents_good (r : List Char) (hne : r ≠ [])
    (habs : hasPfx ['/'] r = false)
    (hdd : ['.', '.'] ∉ splitChar '/' r)
    (hdot : (splitChar '/' r).head? ≠ some ['.']) :
    collectNormal (rustComponents r) =
      some (((splitChar '/' r).filter (fun s => s ≠ [] ∧ s ≠ ['.'])).map String.mk) ∧
    ((splitChar '/' r).filter (fun s => s ≠ [] ∧ s ≠ ['.'])).map String.mk ≠ [] := by
  have habs' : ¬ hasPfx ['/'] r = true := by rw [habs]; simp
  rcases hseg : splitChar '/' r with _ | ⟨s0, rest⟩
  · exact absurd hseg (splitChar_ne_nil '/' r)
  · have hs0ne : s0 ≠ [] := splitChar_head_ne_nil r hne habs s0 rest hseg
    have hs0dot : s0 ≠ ['.'] := by
      rintro rfl
      rw [hseg] at hdot
      simp at hdot
    have hs0dd : s0 ≠ ['.', '.'] := by
      rintro rfl
      exact hdd (hseg ▸ List.mem_cons_self _ _)
    have hcomp : toComp s0 = RComp.normal (String.mk s0) := by
      simp [toComp, hs0dot, hs0dd]
    have hred : (((s0 :: rest).filter (· ≠ [])).map toComp) =
        RComp.normal (String.mk s0) :: ((rest.filter (· ≠ [])).map toComp) := by
      simp [List.filter_cons, hs0ne, hcomp]
    constructor
    · rw [rustComponents, if_neg habs', hseg, hred, normalizeRel_normal]
      have hfull := collectNormal_filtered (s0 :: rest) (hseg ▸ hdd)
      rw [hred] at hfull
      exact hfull
    · intro hmap
      have hmem : String.mk s0 ∈
          ((s0 :: rest).filter (fun s => s ≠ [] ∧ s ≠ ['.'])).map String.mk := by
        refine List.mem_map.2 ⟨s0, ?_, rfl⟩
        exact List.mem_filter.2 ⟨List.mem_cons_self _ _, by simp [hs0ne, hs0dot]⟩
      rw [hmap] at hmem
      simp at hmem

/-- Counterexample to C2 as stated: for the raw path `x/./a` the remainder
`./a` after the discarded first segment is a plain relative path (no `..`
segment, no root marker, non-empty), whose `/`-join of non-dot normal
segments is `a`; yet sanitization returns the invalid sentinel, because a
leading `.` component survives Rust path normalization and is not a
`Normal` component. -/
theorem sanitize_path_claim_counterexample :
    restAfterSlash ("x/./a" : String).data = some ['.', '/', 'a'] ∧
    ¬(['.', '.'] ∈ splitChar '/' (['.', '/', 'a'] : List Char) ∨ hasPfx ['/'] (['.', '/', 'a'] : List Char) = true ∨
      (['.', '/', 'a'] : List Char) = []) ∧
    specSanitizeJoin (['.', '/', 'a'] : List Char) = "a" ∧
    sanitize_path "x/./a" = "" ∧
    ("" : String) ≠ "a" := by
  refine ⟨by decide, by decide, by decide, by decide, by decide⟩

/-- C2 (amended): with the remainder being the portion after the first
`/`; a missing or empty remainder, a `..` segment, an absolute (root)
remainder, or a remainder whose first segment is `.` yields the
empty-string invalid sentinel; every other remainder yields the `/`-join
of its non-empty non-dot segments. -/
theorem sanitize_path_characterization (path : String) :
    (restAfterSlash path.data = none → sanitize_path path = "") ∧
    (∀ r, restAfterSlash path.data = some r →
      ((['.', '.'] ∈ splitChar '/' r ∨ hasPfx ['/'] r = true ∨ r = [] ∨
        (splitChar '/' r).head? = some ['.']) → sanitize_path path = "") ∧
      (¬(['.', '.'] ∈ splitChar '/' r ∨ hasPfx ['/'] r = true ∨ r = [] ∨
         (splitChar '/' r).head? = some ['.']) →
        sanitize_path path = specSanitizeJoin r)) := by
  constructor
  · intro h
    simp [sanitize_path, h]
  · intro r hr
    constructor
    · intro hbad
      by_cases hre : r = []
      · subst hre
        simp [sanitize_path, hr]
        rfl
      · have hnone : collectNormal (rustComponents r) = none := by
          apply rustComponents_bad
          rcases hbad with h1 | h2 | h3 | h4
          · exact Or.inl h1
          · exact Or.inr (Or.inl h2)
          · exact absurd h3 hre
          · exact Or.inr (Or.inr h4)
        simp [sanitize_path, hr, hnone]
    · intro hgood
      push_neg at hgood
      obtain ⟨hdd, habs, hne, hdot⟩ := hgood
      have habs' : hasPfx ['/'] r = false := by
        cases hb : hasPfx ['/'] r
        · rfl
        · exact absurd hb habs
      obtain ⟨hcoll, hnil⟩ := rustComponents_good r hne habs' hdd hdot
      rcases hl : ((splitChar '/' r).filter (fun s => s ≠ [] ∧ s ≠ ['.'])).map String.mk
        with _ | ⟨x, xs⟩
      · exact absurd hl hnil
      · rw [hl] at hcoll
        have hsj : specSanitizeJoin r = joinSlash (x :: xs) := by
          simp only [specSanitizeJoin]
          rw [hl]
        rw [hsj]
        simp [sanitize_path, hr, hcoll]

/-- Witness for C2 (amended) at a concrete plain relative path. -/
theorem sanitize_path_characterization_witness :
    sanitize_path "x/a/b" = specSanitizeJoin ['a', '/', 'b'] :=
  ((sanitize_path_characterization "x/a/b").2 ['a', '/', 'b'] (by decide)).2 (by decide)

/-! ## C4: cache bound and LRU eviction -/

theorem cacheKeys_cons (n : String) (v : Bytes) (rest : Cache) :
    cacheKeys ((n, v) :: rest) = n :: cacheKeys rest := rfl

theorem cacheErase_of_not_mem (c : Cache) (k : String) (h : k ∉ cacheKeys c) :
    cacheErase c k = c := by
  induction c with
  | nil => rfl
  | cons p rest ih =>
    obtain ⟨n, v⟩ := p
    rw [cacheKeys_cons] at h
    have hn : ¬ n = k := by
      rintro rfl
      exact h (List.mem_cons_self _ _)
    rw [cacheErase, if_neg hn, ih (fun hm => h (List.mem_cons_of_mem _ hm))]

theorem cacheErase_length_le (c : Cache) (k : String) :
    (cacheErase c k).length ≤ c.length := by
  induction c with
  | nil => exact Nat.le_refl _
  | cons p rest ih =>
    obtain ⟨n, v⟩ := p
    rw [cacheErase]
    split
    · simp
    · simp only [List.length_cons]
      omega

theorem cacheErase_length_of_mem (c : Cache) (k : String) (h : k ∈ cacheKeys c) :
    (cacheErase c k).length + 1 = c.length := by
  induction c with
  | nil => simp [cacheKeys] at h
  | cons p rest ih =>
    obtain ⟨n, v⟩ := p
    by_cases hn : n = k
    · rw [cacheErase, if_pos hn]
      rfl
    · rw [cacheKeys_cons] at h
      have hm : k ∈ cacheKeys rest := by
        rcases List.mem_cons.1 h with he | hm
        · exact absurd he.symm hn
        · exact hm
      rw [cacheErase, if_neg hn]
      have := ih hm
      simp only [List.length_cons]
      omega

theorem cacheLookup_isSome_iff (c : Cache) (k : String) :
    (cacheLookup c k).isSome = true ↔ k ∈ cacheKeys c := by
  induction c with
  | nil => simp [cacheLookup, cacheKeys]
  | cons p rest ih =>
    obtain ⟨n, v⟩ := p
    rw [cacheKeys_cons, cacheLookup]
    by_cases hn : n = k
    · subst hn
      simp
    · rw [if_neg hn]
      simp only [List.mem_cons, ih]
      constructor
      · exact Or.inr
      · rintro (he | hm)
        · exact absurd he.symm hn
        · exact hm

theorem LruCache.get_fst (c : Cache) (k : String) :
    (LruCache.get c k).1 = cacheLookup c k := by
  cases hl : cacheLookup c k <;> simp [LruCache.get, hl]

theorem LruCache.get_snd_length (c : Cache) (k : String) :
    (LruCache.get c k).2.length = c.length := by
  cases hl : cacheLookup c k with
  | none => simp [LruCache.get, hl]
  | some v =>
    have hm : k ∈ cacheKeys c := (cacheLookup_isSome_iff c k).1 (by rw [hl]; rfl)
    have := cacheErase_length_of_mem c k hm
    simp only [LruCache.get, hl, List.length_cons]
    omega

theorem LruCache.put_length_le (c : Cache) (cap : Nat) (k : String) (v : Bytes)
    (h : c.length ≤ cap) : (LruCache.put c cap k v).length ≤ cap := by
  have he := cacheErase_length_le c k
  rw [LruCache.put]
  split
  · rw [List.length_dropLast]
    simp only [List.length_cons]
    omega
  · simp only [List.length_cons] at *
    omega

theorem runOps_length_le (ops : List CacheOp) :
    ∀ c : Cache, c.length ≤ logCacheCapacity →
      (runOps c ops).length ≤ logCacheCapacity := by
  induction ops with
  | nil => intro c h; exact h
  | cons op ops ih =>
    intro c h
    rw [runOps, List.foldl_cons]
    refine ih (applyOp c op) ?_
    cases op with
    | get key =>
      rw [applyOp]
      rw [LruCache.get_snd_length]
      exact h
    | put key v =>
      exact LruCache.put_length_le c logCacheCapacity key v h

theorem LruCache.put_full_fresh (c : Cache) (cap : Nat) (k : String) (v : Bytes)
    (hcap : 0 < cap) (hlen : c.length = cap) (hk : k ∉ cacheKeys c) :
    LruCache.put c cap k v = (k, v) :: c.dropLast := by
  rw [LruCache.put, cacheErase_of_not_mem c k hk]
  rw [if_pos (by simp only [List.length_cons]; omega)]
  cases c with
  | nil => rw [List.length_nil] at hlen; omega
  | cons hd tl => rfl

theorem cacheKeys_put_fresh (c : Cache) (cap : Nat) (k : String) (v : Bytes)
    (h : c.length ≤ cap) (hk : k ∉ cacheKeys c) :
    cacheKeys (LruCache.put c cap k v) = (k :: cacheKeys c).take cap := by
  rw [LruCache.put, cacheErase_of_not_mem c k hk]
  by_cases hfull : cap < ((k, v) :: c).length
  · rw [if_pos hfull]
    have hlen : c.length = cap := by
      simp only [List.length_cons] at hfull
      omega
    rw [show cacheKeys ((k, v) :: c).dropLast = (cacheKeys ((k, v) :: c)).dropLast from
      (List.map_dropLast _ _)]
    rw [cacheKeys_cons, List.dropLast_eq_take]
    congr 1
    simp [hlen, cacheKeys]
  · rw [if_neg hfull]
    rw [cacheKeys_cons]
    symm
    refine List.take_of_length_le ?_
    simp only [List.length_cons] at hfull ⊢
    simp only [cacheKeys, List.length_map]
    omega

theorem take_append_take {α : Type} (A B : List α) (n : Nat) :
    (A ++ B.take n).take n = (A ++ B).take n := by
  rw [List.take_append_eq_append_take, List.take_append_eq_append_take, List.take_take]
  congr 1
  congr 1
  exact Nat.min_eq_left (Nat.sub_le n A.length)

theorem putAll_keys (kvs : List (String × Bytes)) :
    ∀ c : Cache, (cacheKeys c).Nodup → (kvs.map Prod.fst).Nodup →
      (∀ p ∈ kvs, p.1 ∉ cacheKeys c) → c.length ≤ logCacheCapacity →
      cacheKeys (putAll c kvs) =
        ((kvs.map Prod.fst).reverse ++ cacheKeys c).take logCacheCapacity := by
  induction kvs with
  | nil =>
    intro c h1 _ _ hlen
    rw [putAll, List.foldl_nil, List.map_nil, List.reverse_nil, List.nil_append]
    symm
    refine List.take_of_length_le ?_
    simp only [cacheKeys, List.length_map]
    exact hlen
  | cons p kvs ih =>
    intro c h1 h2 h3 hlen
    obtain ⟨k, v⟩ := p
    have hk : k ∉ cacheKeys c := h3 (k, v) (List.mem_cons_self _ _)
    have hkeys := cacheKeys_put_fresh c logCacheCapacity k v hlen hk
    have hput := ih (LruCache.put c logCacheCapacity k v)
      (by
        rw [hkeys]
        exact List.Nodup.sublist (List.take_sublist _ _)
          (List.nodup_cons.2 ⟨hk, h1⟩))
      (List.Nodup.of_cons (by rw [List.map_cons] at h2; exact h2))
      (by
        intro q hq hmem
        rw [hkeys] at hmem
        have hmem' := List.mem_of_mem_take hmem
        rcases List.mem_cons.1 hmem' with he | hm
        · have hq1 : q.1 ∈ kvs.map Prod.fst := List.mem_map.2 ⟨q, hq, rfl⟩
          rw [he] at hq1
          have hknotin : k ∉ kvs.map Prod.fst := by
            rw [List.map_cons] at h2
            exact (List.nodup_cons.1 h2).1
          exact hknotin hq1
        · exact h3 q (List.mem_cons_of_mem _ hq) hm)
      (LruCache.put_length_le c logCacheCapacity k v hlen)
    rw [putAll, List.foldl_cons] at *
    rw [hput, hkeys]
    rw [take_append_take]
    simp only [List.map_cons, List.reverse_cons, List.append_assoc, List.singleton_append]

/-- C4: starting from the empty per-origin cache, no sequence of `get` and
`put` operations ever leaves more than 1024 entries; a `put` of a fresh key
into a full cache evicts exactly the least-recently-touched entry (the
last in recency order), keeping all others; and after inserting 1025
distinct keys into the empty cache the first-inserted key is gone while
the other 1024 keys all remain retrievable. -/
theorem lru_cache_bound_and_eviction :
    (∀ ops : List CacheOp, (runOps [] ops).length ≤ 1024) ∧
    (∀ (c : Cache) (k : String) (v : Bytes), c.length = 1024 → k ∉ cacheKeys c →
      LruCache.put c 1024 k v = (k, v) :: c.dropLast) ∧
    (∀ kvs : List (String × Bytes), (kvs.map Prod.fst).Nodup → kvs.length = 1025 →
      (∀ k, k ∈ (kvs.map Prod.fst).drop 1 →
        ((LruCache.get (putAll [] kvs) k).1).isSome = true) ∧
      (∀ k, (kvs.map Prod.fst).head? = some k →
        (LruCache.get (putAll [] kvs) k).1 = none)) := by
  refine ⟨?_, ?_, ?_⟩
  · intro ops
    exact runOps_length_le ops [] (by simp [logCacheCapacity])
  · intro c k v hlen hk
    exact LruCache.put_full_fresh c 1024 k v (by omega) hlen hk
  · intro kvs hnd hlen
    have hkeys := putAll_keys kvs [] (by simp [cacheKeys]) hnd
      (by simp [cacheKeys]) (by simp)
    rcases kvs with _ | ⟨p, rest⟩
    · simp at hlen
    · obtain ⟨k0, v0⟩ := p
      have hrest : (rest.map Prod.fst).length = 1024 := by
        simp only [List.length_map]
        simp only [List.length_cons] at hlen
        omega
      have hkeys' : cacheKeys (putAll [] ((k0, v0) :: rest)) =
          (rest.map Prod.fst).reverse := by
        rw [hkeys]
        simp only [List.map_cons, List.reverse_cons, cacheKeys, List.map_nil,
          List.append_nil, logCacheCapacity]
        rw [show (1024 : Nat) = ((rest.map Prod.fst).reverse).length from by
          rw [List.length_reverse, hrest]]
        exact List.take_left _ _
      constructor
      · intro k hk
        rw [LruCache.get_fst, cacheLookup_isSome_iff, hkeys']
        rw [List.mem_reverse]
        simpa using hk
      · intro k hk
        simp only [List.map_cons, List.head?] at hk
        have h : k0 = k := by injection hk
        rw [← h, LruCache.get_fst]
        have hnotmem : k0 ∉ cacheKeys (putAll [] ((k0, v0) :: rest)) := by
          rw [hkeys', List.mem_reverse]
          rw [List.map_cons] at hnd
          exact (List.nodup_cons.1 hnd).1
        rcases hl : cacheLookup (putAll [] ((k0, v0) :: rest)) k0 with _ | w
        · rfl
        · exact absurd ((cacheLookup_isSome_iff _ _).1 (by rw [hl]; rfl)) hnotmem

/-- Key and full-cache builders for the C4 witness: 1024 pairwise distinct
keys, distinguished by length. -/
def wKey (i : Nat) : String := String.mk (List.replicate i 'a')

def wCache : Cache := (List.range 1024).map (fun i => (wKey i, []))

theorem wKey_injective : Function.Injective wKey := by
  intro i j h
  have := congrArg (fun s => s.data.length) h
  simpa [wKey] using this

theorem wCache_length : wCache.length = 1024 := by
  simp [wCache]

theorem wKey_top_not_mem : wKey 1024 ∉ cacheKeys wCache := by
  intro hmem
  simp only [wCache, cacheKeys, List.map_map, List.mem_map] at hmem
  obtain ⟨i, hi, he⟩ := hmem
  have : i = 1024 := wKey_injective he
  rw [List.mem_range] at hi
  omega

/-- Witness for C4: the eviction equation at a concrete full cache of 1024
distinct keys and a concrete fresh key. -/
theorem lru_cache_bound_and_eviction_witness :
    LruCache.put wCache 1024 (wKey 1024) [] = (wKey 1024, []) :: wCache.dropLast :=
  lru_cache_bound_and_eviction.2.1 wCache (wKey 1024) [] wCache_length wKey_top_not_mem

end Heliotorrent
